import Mathlib

/-!
Verification development for the flask-googlestorage bucket storage engine.

The definitions below are a shallow embedding of the Python sources
(`flask_googlestorage/buckets.py`, `utils.py`, `google_storage.py`).
Pure functions become Lean functions; filesystem and object-store state is
passed explicitly (the set of existing local files is a `List String` of
relative path strings, upload attempts are an oracle `Nat → UploadOutcome`,
and counters record how many store calls were made).  External collaborators
(werkzeug's `secure_filename`, the uuid generator, the object-store client)
are modelled as explicit parameters or as small executable functions that
follow their documented contracts.
-/

namespace FlaskGS

/-- Model of Python `str.lower` for a single character (ASCII range, which is
the only range produced for extensions after werkzeug sanitization). -/
def lowerChar (c : Char) : Char :=
  if 'A' ≤ c ∧ c ≤ 'Z' then Char.ofNat (c.toNat + 32) else c

/-- Model of Python `str.lower` on a whole string, mapping `lowerChar`. -/
def strLower (s : String) : String :=
  ⟨s.data.map lowerChar⟩

/-- Helper splitting a character list at its LAST dot: returns
`some (stem, suffix)` where `suffix` starts with the last `'.'` of the list,
or `none` when the list has no dot.  The recursion prefers a split found in
the tail, hence the split happens at the last dot. -/
def splitExtAux : List Char → Option (List Char × List Char)
  | [] => none
  | c :: cs =>
    match splitExtAux cs with
    | some (st, sf) => some (c :: st, sf)
    | none => if c = '.' then some ([], '.' :: cs) else none

/-- Model of Python `PurePath.suffix` / `PurePath.stem` on a single path
segment: split `s` at its last dot `i` provided `0 < i < len s - 1`
(the CPython rule), and otherwise return `(s, "")`. -/
def splitExt (s : String) : String × String :=
  match splitExtAux s.data with
  | some (st, sf) => if st ≠ [] ∧ 2 ≤ sf.length then (⟨st⟩, ⟨sf⟩) else (s, "")
  | none => (s, "")

/-- Stem of a segment (Python `PurePath(s).stem`). -/
def stemOf (s : String) : String := (splitExt s).1

/-- Suffix of a segment (Python `PurePath(s).suffix`  on a one-segment path). -/
def sfxOf (s : String) : String := (splitExt s).2

/-- Model of Python `PurePath.with_suffix`: drop the old suffix of the final
segment and append the new one (`with_suffix("")` just drops the suffix). -/
def withSfx (s sfx : String) : String := stemOf s ++ sfx

/-- Split a character list on `'/'` (accumulator holds the current segment
reversed); a kernel-reducible stand-in for `String.split`. -/
def splitSlashAux : List Char → List Char → List String
  | [], acc => [⟨acc.reverse⟩]
  | c :: cs, acc =>
    if c = '/' then ⟨acc.reverse⟩ :: splitSlashAux cs []
    else splitSlashAux cs (c :: acc)

/-- Segments of a path string as Python `PurePath(s).parts` produces them for
relative paths: split on `'/'`, dropping empty segments and `"."` segments. -/
def pySegs (s : String) : List String :=
  (splitSlashAux s.data []).filter (fun t => t ≠ "" ∧ t ≠ ".")

/-- Final path segment (Python `PurePath(s).name`; `""` for the empty path). -/
def nameFinal (s : String) : String := ((pySegs s).getLast?).getD ""

/-- Parent segments (Python `PurePath(s).parent.parts` for a relative path). -/
def nameParent (s : String) : List String := (pySegs s).dropLast

/-- Model of Python `PurePath(s).suffix` for a full path string. -/
def pathSuffix (s : String) : String := sfxOf (nameFinal s)

/-- Extension without the leading dot, as compared against the configured
extension lists (`basename.suffix[1:]` in the source). -/
def extNoDot (s : String) : String := ⟨s.data.drop 1⟩

/-- Relative path as handled by the bucket code: parent folder segments plus
a final file name segment (a shallow model of `pathlib.PurePath`). -/
structure PPath where
  parent : List String
  name : String
deriving DecidableEq

/-- Join segments with `'/'` (Python `str(PurePath(*segs))` for a relative
path); a kernel-reducible stand-in for `String.intercalate "/"`. -/
def joinSegs : List String → String
  | [] => ""
  | [x] => x
  | x :: xs => x ++ "/" ++ joinSegs xs

/-- Render a `PPath` as its slash-separated string (Python `str(path)`). -/
def pathStr (p : PPath) : String :=
  joinSegs (p.parent ++ [p.name])

/-- Path string of segment `n` under parent segments `par`. -/
def joinP (par : List String) (n : String) : String := pathStr ⟨par, n⟩

/-- Replace the final name segment of a path (Python `PurePath.with_name`). -/
def withName (p : PPath) (n : String) : PPath := ⟨p.parent, n⟩

/-- Characters kept by werkzeug `secure_filename` for ASCII input
(the regex `[^A-Za-z0-9_.-]` deletes everything else). -/
def sfKeep (c : Char) : Bool :=
  c.isAlphanum || c = '.' || c = '_' || c = '-'

/-- Strip characters satisfying `p` from both ends of a character list
(Python `str.strip`). -/
def stripEnds (p : Char → Bool) (cs : List Char) : List Char :=
  ((cs.dropWhile p).reverse.dropWhile p).reverse

/-- Model of werkzeug `secure_filename` restricted to space-free ASCII input:
delete characters outside `[A-Za-z0-9_.-]`, then strip `'.'` and `'_'` from
both ends.  (werkzeug additionally transliterates or drops non-ASCII
characters and collapses whitespace to underscores; for non-ASCII input the
relevant observable fact, used below, is only that the result can be empty.) -/
def secure_filename (s : String) : String :=
  ⟨stripEnds (fun c => c = '.' || c = '_') (s.data.filter sfKeep)⟩

/-- Python truthiness for the optional `name` argument: `None` and `""` are
both falsy. -/
def givenName (nameArg : Option String) : Option String :=
  match nameArg with
  | some n => if n = "" then none else some n
  | none => none

/-- Result of `secure_path`: the secured path plus the state of the uuid
supply (how many fresh identifiers have been drawn so far). -/
structure SecPathOut where
  path : PPath
  ctr : Nat
deriving DecidableEq

/-- Shared tail of `utils.secure_path` (lines 54-57): fall back to a fresh
uuid when sanitization yields an empty final name, then append the
lower-cased extension via `PurePath.with_suffix`. -/
def finishSecure (uuidGen : Nat → String) (c : Nat) (par : List String)
    (secureName : String) (ext : String) : SecPathOut :=
  if secureName = "" then
    ⟨⟨par, withSfx (uuidGen c) (strLower ext)⟩, c + 1⟩
  else
    ⟨⟨par, withSfx secureName (strLower ext)⟩, c⟩

/-- Shallow embedding of `utils.secure_path(filename, name, uuid_name)`.
The werkzeug sanitizer `sf` and the uuid supply `uuidGen` (with next-draw
counter `c`) are explicit parameters.  The source also computes a
trailing-dot-stripped `stem` of the preferred name, but never uses it, so it
has no counterpart here. -/
def secure_path (sf : String → String) (uuidGen : Nat → String) (c : Nat)
    (filename : String) (nameArg : Option String) (uuid_name : Bool) : SecPathOut :=
  let ext := pathSuffix filename
  match givenName nameArg with
  | some n =>
    let sfxN := sfxOf (nameFinal n)
    let ext1 := if sfxN ≠ "" then sfxN else ext
    let securePar := (((nameParent n).filter (fun part => part ≠ "..")).map sf).filter
      (fun part => part ≠ "")
    let secureName := sf (nameFinal n)
    finishSecure uuidGen c securePar secureName ext1
  | none =>
    if uuid_name then
      finishSecure uuidGen (c + 1) [] (uuidGen c) ext
    else
      finishSecure uuidGen c [] (sf filename) ext

/-- Candidate name tried by the conflict-resolution loop:
`f"{stem}_{count}{suffix}"`. -/
def candName (stem sfx : String) (k : Nat) : String :=
  stem ++ "_" ++ Nat.repr k ++ sfx

/-- Conflict-resolution search (`LocalBucket.save` while-loop): starting at
candidate index `k`, return the first index whose candidate path does not
exist.  `fuel` bounds the recursion; every caller passes `fs.length + 1`,
which is enough fuel whenever some candidate in range is free. -/
def freeFrom (fs : List String) (par : List String) (stem sfx : String) :
    Nat → Nat → Nat
  | 0, k => k
  | fuel + 1, k =>
    if joinP par (candName stem sfx k) ∈ fs then
      freeFrom fs par stem sfx fuel (k + 1)
    else k

/-- Shallow embedding of `LocalBucket.save` (buckets.py lines 58-84).  The
filesystem is the list `fs` of existing relative path strings; the returned
list is the filesystem after the write.  Directory creation has no
counterpart because only files are modelled. -/
def localSave (resolve_conflicts : Bool) (fs : List String) (path : PPath) :
    PPath × List String :=
  let path1 :=
    if resolve_conflicts ∧ pathStr path ∈ fs then
      withName path
        (candName (stemOf path.name) (sfxOf path.name)
          (freeFrom fs path.parent (stemOf path.name) (sfxOf path.name)
            (fs.length + 1) 1))
    else path
  (path1, pathStr path1 :: fs)

/-- Outcome of one `blob.upload_from_filename` call, as observed by the
retry wrapper: success, a `GoogleCloudError`, or any other exception. -/
inductive UploadOutcome
  | ok
  | gce (msg : String)
  | err (msg : String)
deriving DecidableEq

/-- Error escaping `CloudBucket.save`'s upload step. -/
inductive UploadError
  | gce (msg : String)
  | other (msg : String)
deriving DecidableEq

/-- Result of a single upload attempt with no retries left: whatever the
call raised is re-raised (`reraise=True`). -/
def attemptOnce (o : UploadOutcome) : Except UploadError Unit :=
  match o with
  | .ok => .ok ()
  | .gce m => .error (.gce m)
  | .err m => .error (.other m)

/-- Retry loop of `tenacity.retry(reraise=True,
retry=retry_if_exception_type(GoogleCloudError), stop=stop_after_attempt(..))`:
attempt `i` runs; a `GoogleCloudError` is retried while attempts remain
(`r` is the number of attempts still allowed after the current one), any
other exception propagates at once, and the last error is re-raised
unchanged on exhaustion.  Returns the result and the number of upload calls
made so far (`i` counts calls already made before entering). -/
def runRetryAux (f : Nat → UploadOutcome) (i : Nat) :
    Nat → Except UploadError Unit × Nat
  | 0 => (attemptOnce (f i), i + 1)
  | r + 1 =>
    match f i with
    | .ok => (.ok (), i + 1)
    | .gce _ => runRetryAux f (i + 1) r
    | .err m => (.error (.other m), i + 1)

/-- Retry wrapper configured with `stop_after_attempt n`. -/
def runRetry (f : Nat → UploadOutcome) (n : Nat) : Except UploadError Unit × Nat :=
  runRetryAux f 0 (n - 1)

deriving instance DecidableEq for Except

/-- Result of `CloudBucket.save`: outcome, local filesystem after the call,
number of upload calls, number of `make_public` calls, and the remote blob
key the blob object was created under. -/
structure CloudSaveOut where
  res : Except UploadError PPath
  fs : List String
  uploadCalls : Nat
  publicCalls : Nat
  blobKey : String
deriving DecidableEq

/-- Upload step of `CloudBucket.save` (buckets.py lines 207-215): with a
non-empty `self.tenacity` dict the call runs under the tenacity wrapper,
otherwise `blob.upload_from_filename` is called exactly once. -/
def uploadRun (tenacity : Option Nat) (f : Nat → UploadOutcome) :
    Except UploadError Unit × Nat :=
  match tenacity with
  | some n => runRetry f n
  | none => (attemptOnce (f 0), 1)

/-- Cleanup clause of `CloudBucket.save`'s `finally` (buckets.py lines
216-218): when `delete_local` is set, the staged file is unlinked. -/
def cloudCleanup (delete_local : Bool) (fs1 : List String) (key : String) :
    List String :=
  if delete_local then fs1.filter (fun q => q ≠ key) else fs1

/-- Shallow embedding of `CloudBucket.save` (buckets.py lines 185-223).
`tenacity` is the bucket's retry configuration: `none` models an empty
`self.tenacity` dict (single attempt, no wrapper), `some n` models a dict
carrying `stop=stop_after_attempt(n)`.  `f` is the upload oracle giving the
outcome of each successive `blob.upload_from_filename` call.  The
`try/finally` of the source appears as the unconditional `cloudCleanup`
applied before either outcome is returned; `make_public` runs only after a
successful upload.  The md5 checksum attached to the blob before the `try`
block reads the just-written staged file and changes no modelled state, so
it has no counterpart here. -/
def cloudSave (delete_local : Bool) (tenacity : Option Nat)
    (resolve_conflicts : Bool) (f : Nat → UploadOutcome) (public : Bool)
    (fs : List String) (path : PPath) : CloudSaveOut :=
  let staged := localSave resolve_conflicts fs path
  let key := pathStr staged.1
  let run := uploadRun tenacity f
  let fs2 := cloudCleanup delete_local staged.2 key
  match run.1 with
  | .ok _ => ⟨.ok staged.1, fs2, run.2, if public then 1 else 0, key⟩
  | .error e => ⟨.error e, fs2, run.2, 0, key⟩

/-- Error escaping `Bucket.save`. -/
inductive SaveError
  | notAllowedUpload
  | upload (e : UploadError)
deriving DecidableEq

/-- Result of a `Bucket.save` call: outcome, local filesystem, store-call
counters, blob key used (`none` when the object store was never touched),
and the uuid-supply counter after the call. -/
structure BucketSaveOut where
  res : Except SaveError PPath
  fs : List String
  uploadCalls : Nat
  publicCalls : Nat
  blobKey : Option String
  ctr : Nat
deriving DecidableEq

/-- Shallow embedding of `Bucket.save` (buckets.py lines 312-353) for a
bucket whose resolved storage is a `CloudBucket`: secure the path, run the
`allows` policy check, and only then delegate to the storage backend.
Inputs are assumed to be `FileStorage` objects, so the source's initial
`isinstance` `TypeError` guard has no counterpart. -/
def bucketSaveCloud (allows : PPath → Bool) (delete_local : Bool)
    (tenacity : Option Nat) (resolve_conflicts : Bool)
    (sf : String → String) (uuidGen : Nat → String) (c : Nat)
    (filename : String) (nameArg : Option String) (uuid_name : Bool)
    (public : Bool) (f : Nat → UploadOutcome) (fs : List String) : BucketSaveOut :=
  let sp := secure_path sf uuidGen c filename nameArg uuid_name
  if allows sp.path then
    let out := cloudSave delete_local tenacity resolve_conflicts f public fs sp.path
    ⟨Except.mapError SaveError.upload out.res, out.fs, out.uploadCalls,
      out.publicCalls, some out.blobKey, sp.ctr⟩
  else
    ⟨.error .notAllowedUpload, fs, 0, 0, none, sp.ctr⟩

set_option linter.unusedVariables false in
/-- Shallow embedding of `Bucket.save` for a bucket whose resolved storage
is a `LocalBucket`.  The `public` keyword argument is forwarded by
`Bucket.save` and swallowed by `LocalBucket.save`'s `**kwargs`; it is kept
as a parameter that the body never consults, exactly like the source. -/
def bucketSaveLocal (allows : PPath → Bool) (resolve_conflicts : Bool)
    (sf : String → String) (uuidGen : Nat → String) (c : Nat)
    (filename : String) (nameArg : Option String) (uuid_name : Bool)
    (public : Bool) (fs : List String) : BucketSaveOut :=
  let sp := secure_path sf uuidGen c filename nameArg uuid_name
  if allows sp.path then
    let out := localSave resolve_conflicts fs sp.path
    ⟨.ok out.1, out.2, 0, 0, none, sp.ctr⟩
  else
    ⟨.error .notAllowedUpload, fs, 0, 0, none, sp.ctr⟩

/-- Merged allowed-extension tuple computed by `GoogleStorage._create_bucket`
(google_storage.py lines 53-55):
`tuple(ext for ext in bucket.extensions + allow if ext not in deny)`. -/
def mergedExtensions (defaults allow deny : List String) : List String :=
  (defaults ++ allow).filter (fun e => decide (e ∉ deny))

/-- Extension policy check over a merged extension tuple, applied to the
resolved path's extension without its dot (`basename.suffix[1:]`). -/
def fileAllowedByExts (exts : List String) (p : PPath) : Bool :=
  decide (extNoDot (sfxOf p.name) ∈ exts)

/-- How the block guarded by `Bucket.storage_ctx` terminates. -/
inductive BlockExit
  | normal
  | raised
deriving DecidableEq

/-- Value of the `Bucket._storage` slot while the `storage_ctx` block runs:
the generator has assigned the override and is suspended at `yield`. -/
def storageCtxDuring {α : Type} (override : α) : Option α := some override

/-- Value of the `Bucket._storage` slot after the `storage_ctx` block
finishes (buckets.py lines 259-279).  The generator body is
`self._storage = storage; yield storage; self._storage = None` with no
`try/finally`: on a normal exit the generator resumes and clears the slot,
but an exception raised in the block is thrown into the generator at the
`yield` and propagates, so the reset line never runs and the override stays. -/
def storageCtxAfter {α : Type} (override : α) (outcome : BlockExit) : Option α :=
  match outcome with
  | .normal => none
  | .raised => some override

/-- Storage resolution of the `Bucket.storage` property (buckets.py lines
281-296): the `_storage` slot if set (a backend object is always truthy),
otherwise the process-wide registry binding for the bucket. -/
def resolveStorage {α : Type} (slot : Option α) (registry : α) : α :=
  match slot with
  | some s => s
  | none => registry

/-- Remote blob as far as the URL operations observe it: its public URL and
the signed URL produced by `generate_signed_url(**self.signature)`. -/
structure Blob where
  blobName : String
  publicUrl : String
  signedUrl : String
deriving DecidableEq

/-- Shallow embedding of `CloudBucket.url` (buckets.py lines 157-168): look
the blob up by name through the bucket handle `g`; if it exists return its
public URL, otherwise fall through and return `None`. -/
def cloudUrl (g : String → Option Blob) (n : String) : Option String :=
  match g n with
  | some b => some b.publicUrl
  | none => none

/-- Shallow embedding of `CloudBucket.signed_url` (buckets.py lines
170-183): like `cloudUrl` but producing the signed URL. -/
def cloudSignedUrl (g : String → Option Blob) (n : String) : Option String :=
  match g n with
  | some b => some b.signedUrl
  | none => none

/-- The extension actually applied by `secure_path`: the preferred name's
suffix when it has one, otherwise the original filename's suffix. -/
def chosenExt (filename : String) (nameArg : Option String) : String :=
  match givenName nameArg with
  | some n => if sfxOf (nameFinal n) ≠ "" then sfxOf (nameFinal n) else pathSuffix filename
  | none => pathSuffix filename

/-- Upload oracle of the retry test fixture: the first two calls raise
`GoogleCloudError`, every later call succeeds. -/
def failTwiceThenOk : Nat → UploadOutcome
  | 0 => .gce "error 1"
  | 1 => .gce "error 2"
  | _ => .ok

theorem charToNatOfValid (n : Nat) (h : n.isValidChar) : (Char.ofNat n).toNat = n := by
  simp [Char.ofNat, h, Char.ofNatAux, Char.toNat, UInt32.toNat, BitVec.toNat_ofNatLt]

theorem lowerChar_eq_dot {c : Char} (h : lowerChar c = '.') : c = '.' := by
  unfold lowerChar at h
  split at h
  · rename_i hr
    exfalso
    have h2 : c.toNat ≤ 90 := by
      have := hr.2
      rw [Char.le_def, UInt32.le_def, BitVec.le_def] at this
      simpa [Char.toNat, UInt32.toNat] using this
    have hv : (c.toNat + 32).isValidChar := by
      left
      omega
    have hh := congrArg Char.toNat h
    rw [charToNatOfValid _ hv] at hh
    have h1 : 65 ≤ c.toNat := by
      have := hr.1
      rw [Char.le_def, UInt32.le_def, BitVec.le_def] at this
      simpa [Char.toNat, UInt32.toNat] using this
    have hd : ('.').toNat = 46 := by decide
    rw [hd] at hh
    omega
  · exact h

theorem dot_notin_map_lowerChar {t : List Char} (h : '.' ∉ t) :
    '.' ∉ t.map lowerChar := by
  intro hmem
  rcases List.mem_map.1 hmem with ⟨c, hc, hlc⟩
  exact h (lowerChar_eq_dot hlc ▸ hc)

theorem splitExtAux_of_no_dot {cs : List Char} (h : '.' ∉ cs) :
    splitExtAux cs = none := by
  induction cs with
  | nil => rfl
  | cons c cs ih =>
    have hc : c ≠ '.' := fun hh => h (hh ▸ List.mem_cons_self c cs)
    have hcs : '.' ∉ cs := fun hh => h (List.mem_cons_of_mem c hh)
    simp [splitExtAux, ih hcs, hc]

theorem splitExtAux_append_dot {xs t : List Char} (ht : '.' ∉ t) :
    splitExtAux (xs ++ '.' :: t) = some (xs, '.' :: t) := by
  induction xs with
  | nil => simp [splitExtAux, splitExtAux_of_no_dot ht]
  | cons x xs ih => simp [splitExtAux, ih]

theorem no_dot_of_splitExtAux_none {cs : List Char}
    (h : splitExtAux cs = none) : '.' ∉ cs := by
  induction cs with
  | nil => simp
  | cons c cs ih =>
    simp only [splitExtAux] at h
    cases hcs : splitExtAux cs with
    | some p => rw [hcs] at h; exact Option.noConfusion h
    | none =>
      rw [hcs] at h
      have hc : c ≠ '.' := by
        intro hc
        rw [if_pos hc] at h
        exact Option.noConfusion h
      intro hmem
      rcases List.mem_cons.1 hmem with h1 | h1
      · exact hc h1.symm
      · exact ih hcs h1

theorem splitExtAux_shape {cs st sf : List Char}
    (h : splitExtAux cs = some (st, sf)) :
    cs = st ++ sf ∧ ∃ t, sf = '.' :: t ∧ '.' ∉ t := by
  induction cs generalizing st sf with
  | nil => simp [splitExtAux] at h
  | cons c cs ih =>
    simp only [splitExtAux] at h
    cases hcs : splitExtAux cs with
    | some p =>
      rw [hcs] at h
      obtain ⟨st', sf'⟩ := p
      simp at h
      obtain ⟨h1, h2⟩ := h
      obtain ⟨he, ht⟩ := ih hcs
      constructor
      · rw [← h1, ← h2]
        simp [he]
      · exact h2 ▸ ht
    | none =>
      rw [hcs] at h
      by_cases hc : c = '.'
      · rw [if_pos hc] at h
        obtain ⟨h1, h2⟩ : ([] : List Char) = st ∧ '.' :: cs = sf := by
          have := Option.some.inj h
          exact ⟨congrArg Prod.fst this, congrArg Prod.snd this⟩
        refine ⟨by simp [← h1, ← h2, hc], ?_⟩
        rw [← h2]
        exact ⟨cs, rfl, no_dot_of_splitExtAux_none hcs⟩
      · rw [if_neg hc] at h
        exact Option.noConfusion h

theorem string_ne_empty_iff {s : String} : s ≠ "" ↔ s.data ≠ [] := by
  constructor
  · intro h hd
    exact h (String.ext hd)
  · intro h hd
    apply h
    rw [hd]

theorem splitExt_no_dot {s : String} (h : '.' ∉ s.data) : splitExt s = (s, "") := by
  simp [splitExt, splitExtAux_of_no_dot h]

theorem splitExt_append {x : String} {t : List Char}
    (hx : x ≠ "") (ht : '.' ∉ t) (htne : t ≠ []) :
    splitExt (x ++ ⟨'.' :: t⟩) = (x, ⟨'.' :: t⟩) := by
  have hdata : (x ++ (⟨'.' :: t⟩ : String)).data = x.data ++ '.' :: t :=
    String.data_append x ⟨'.' :: t⟩
  have haux : splitExtAux (x.data ++ '.' :: t) = some (x.data, '.' :: t) :=
    splitExtAux_append_dot ht
  have hxne : x.data ≠ [] := string_ne_empty_iff.1 hx
  have hlen : 2 ≤ ('.' :: t).length := by
    cases t with
    | nil => exact absurd rfl htne
    | cons a l => simp
  simp only [splitExt, hdata, haux, hxne, hlen, ne_eq, not_false_iff, and_self, if_pos]

theorem splitExt_eq_some {s : String} {st sf : List Char}
    (haux : splitExtAux s.data = some (st, sf)) :
    splitExt s = if st ≠ [] ∧ 2 ≤ sf.length then (⟨st⟩, ⟨sf⟩) else (s, "") := by
  unfold splitExt
  rw [haux]

theorem splitExt_eq_none {s : String} (haux : splitExtAux s.data = none) :
    splitExt s = (s, "") := by
  unfold splitExt
  rw [haux]

theorem stemOf_ne_empty {s : String} (h : s ≠ "") : stemOf s ≠ "" := by
  unfold stemOf
  cases haux : splitExtAux s.data with
  | none => rw [splitExt_eq_none haux]; exact h
  | some p =>
    obtain ⟨st, sf⟩ := p
    rw [splitExt_eq_some haux]
    by_cases hc : st ≠ [] ∧ 2 ≤ sf.length
    · rw [if_pos hc]
      exact string_ne_empty_iff.2 hc.1
    · rw [if_neg hc]
      exact h

theorem sfx_shape {s : String} (h : (splitExt s).2 ≠ "") :
    ∃ t : List Char, (splitExt s).2 = ⟨'.' :: t⟩ ∧ '.' ∉ t ∧ t ≠ [] := by
  cases haux : splitExtAux s.data with
  | none => rw [splitExt_eq_none haux] at h; exact absurd rfl h
  | some p =>
    obtain ⟨st, sf⟩ := p
    rw [splitExt_eq_some haux] at h ⊢
    by_cases hc : st ≠ [] ∧ 2 ≤ sf.length
    · rw [if_pos hc] at h ⊢
      obtain ⟨-, t, hsf, hnd⟩ := splitExtAux_shape haux
      refine ⟨t, by rw [hsf], hnd, ?_⟩
      intro ht
      rw [hsf, ht] at hc
      simp at hc
    · rw [if_neg hc] at h
      exact absurd rfl h

theorem strLower_dot_shape (t : List Char) :
    strLower ⟨'.' :: t⟩ = ⟨'.' :: t.map lowerChar⟩ := by
  have hd : lowerChar '.' = '.' := by decide
  simp [strLower, hd]

theorem withSfx_sfx {s e : String} (hs : s ≠ "")
    (hshape : ∃ t : List Char, e = ⟨'.' :: t⟩ ∧ '.' ∉ t ∧ t ≠ []) :
    splitExt (withSfx s e) = (stemOf s, e) := by
  obtain ⟨t, het, hnd, htne⟩ := hshape
  rw [withSfx, het]
  exact splitExt_append (stemOf_ne_empty hs) hnd htne

theorem withSfx_empty (s : String) : withSfx s "" = stemOf s := by
  simp [withSfx]

theorem withSfx_ne_empty {s : String} (hs : s ≠ "") (e : String) :
    withSfx s e ≠ "" := by
  rw [withSfx, string_ne_empty_iff, String.data_append]
  intro h
  have := List.append_eq_nil.1 h
  exact string_ne_empty_iff.1 (stemOf_ne_empty hs) this.1

theorem strLower_shape {e : String} (hshape : ∃ t : List Char, e = ⟨'.' :: t⟩ ∧ '.' ∉ t ∧ t ≠ []) :
    strLower e ≠ "" ∧ ∃ t : List Char, strLower e = ⟨'.' :: t⟩ ∧ '.' ∉ t ∧ t ≠ [] := by
  obtain ⟨t, het, hnd, htne⟩ := hshape
  subst het
  rw [strLower_dot_shape]
  refine ⟨string_ne_empty_iff.2 (by simp), t.map lowerChar, rfl, dot_notin_map_lowerChar hnd, ?_⟩
  intro h
  exact htne (List.map_eq_nil_iff.1 h)

theorem sfxOf_withSfx_lower {sn ext : String} (hsn : sn ≠ "")
    (hshape : ∃ t : List Char, ext = ⟨'.' :: t⟩ ∧ '.' ∉ t ∧ t ≠ []) :
    sfxOf (withSfx sn (strLower ext)) = strLower ext := by
  obtain ⟨hlne, hlshape⟩ := strLower_shape hshape
  unfold sfxOf
  rw [withSfx_sfx hsn hlshape]

/-- C6.  For every bucket, an extension is allowed iff it lies in
`(bucket default extensions ∪ allow list) \ deny list`; an extension in both
the allow list and the deny list is rejected.  This is the merge performed
by `GoogleStorage._create_bucket`:
`tuple(ext for ext in bucket.extensions + allow if ext not in deny)`. -/
theorem mergedExtensions_characterization
    (defaults allow deny : List String) (e : String) :
    (e ∈ mergedExtensions defaults allow deny ↔
      (e ∈ defaults ∨ e ∈ allow) ∧ e ∉ deny) ∧
    (e ∈ allow → e ∈ deny → e ∉ mergedExtensions defaults allow deny) := by
  have hmain : e ∈ mergedExtensions defaults allow deny ↔
      (e ∈ defaults ∨ e ∈ allow) ∧ e ∉ deny := by
    unfold mergedExtensions
    rw [List.mem_filter]
    simp [List.mem_append]
  refine ⟨hmain, ?_⟩
  intro ha hd hmem
  exact (hmain.1 hmem).2 hd

/-- Witness for C6: `"exe"` sits in both the allow and the deny list of a
concrete configuration and is rejected by the merged tuple. -/
theorem mergedExtensions_characterization_app :
    "exe" ∉ mergedExtensions ["txt", "jpg"] ["exe"] ["exe"] ∧
    ("png" ∈ mergedExtensions ["txt", "jpg"] ["png"] ["exe"] ↔
      ("png" ∈ ["txt", "jpg"] ∨ "png" ∈ ["png"]) ∧ "png" ∉ ["exe"]) :=
  ⟨(mergedExtensions_characterization ["txt", "jpg"] ["exe"] ["exe"] "exe").2
      (by decide) (by decide),
    (mergedExtensions_characterization ["txt", "jpg"] ["png"] ["exe"] "png").1⟩

/-- C7.  When no remote object exists under a name, `CloudBucket.url` and
`CloudBucket.signed_url` both return `None`; neither ever falls back to a
locally served URL (the result is `none`, not some other URL). -/
theorem cloudUrl_none_when_absent (g : String → Option Blob) (n : String)
    (h : g n = none) :
    cloudUrl g n = none ∧ cloudSignedUrl g n = none := by
  constructor
  · unfold cloudUrl
    rw [h]
  · unfold cloudSignedUrl
    rw [h]

/-- Witness for C7: the test fixture's bucket knows only `"foo.txt"`;
looking up `"bar.txt"` yields no URL of either kind. -/
theorem cloudUrl_none_when_absent_app :
    cloudUrl
        (fun nm => if nm = "foo.txt"
          then some ⟨"foo.txt", "http://public/foo.txt", "http://signed/foo.txt"⟩
          else none) "bar.txt" = none ∧
    cloudSignedUrl
        (fun nm => if nm = "foo.txt"
          then some ⟨"foo.txt", "http://public/foo.txt", "http://signed/foo.txt"⟩
          else none) "bar.txt" = none :=
  cloudUrl_none_when_absent _ "bar.txt" (by decide)

/-- Counterexample for C9 as stated: after a block that raises, resolution
does NOT revert to the registry binding — the override is still returned. -/
theorem storage_ctx_raised_counterexample :
    resolveStorage (storageCtxAfter "override" BlockExit.raised) "registry" ≠
      "registry" := by
  decide

/-- C9 amended.  The scoped override reverts to the registry binding only
when the block exits normally; when the block raises, the `yield` in
`storage_ctx` is never resumed, the slot keeps the override, and subsequent
resolution still returns the override.  During the block the override is in
effect either way. -/
theorem storage_ctx_revert {α : Type} (ov reg : α) :
    resolveStorage (storageCtxAfter ov BlockExit.normal) reg = reg ∧
    resolveStorage (storageCtxAfter ov BlockExit.raised) reg = ov ∧
    resolveStorage (storageCtxDuring ov) reg = ov :=
  ⟨rfl, rfl, rfl⟩

theorem runRetryAux_all_gce (f : Nat → UploadOutcome) (m : Nat → String) :
    ∀ (r i : Nat), (∀ j, j ≤ i + r → f j = .gce (m j)) →
    runRetryAux f i r = (.error (.gce (m (i + r))), i + r + 1) := by
  intro r
  induction r with
  | zero =>
    intro i h
    have hi : f i = .gce (m i) := h i (by omega)
    simp [runRetryAux, attemptOnce, hi]
  | succ r ih =>
    intro i h
    have hi : f i = .gce (m i) := h i (by omega)
    have hrec := ih (i + 1) (fun j hj => h j (by omega))
    simp only [runRetryAux, hi, hrec]
    have h1 : i + 1 + r = i + (r + 1) := by omega
    rw [h1]

theorem runRetry_all_gce (f : Nat → UploadOutcome) (m : Nat → String)
    (n : Nat) (hn : 1 ≤ n) (h : ∀ j, j < n → f j = .gce (m j)) :
    runRetry f n = (.error (.gce (m (n - 1))), n) := by
  unfold runRetry
  have h2 := runRetryAux_all_gce f m (n - 1) 0 (fun j hj => h j (by omega))
  rw [h2]
  have h3 : 0 + (n - 1) = n - 1 := by omega
  rw [h3]
  have h4 : n - 1 + 1 = n := by omega
  rw [h4]

theorem runRetryAux_err_first (f : Nat → UploadOutcome) (i : Nat)
    (msg : String) (hf : f i = .err msg) :
    ∀ r, runRetryAux f i r = (.error (.other msg), i + 1) := by
  intro r
  cases r with
  | zero => simp [runRetryAux, attemptOnce, hf]
  | succ r => simp [runRetryAux, hf]

/-- C2.  The upload wrapper retries only on `GoogleCloudError`, re-raises
the last such error unchanged after `stop_after_attempt n` attempts, and
performs exactly one upload call when no tenacity configuration is present;
with 3 allowed attempts against a fail-twice-then-succeed store the save
succeeds after exactly 3 calls, and with 2 allowed attempts it raises the
second transient error after exactly 2 calls. -/
theorem cloudSave_retry_policy :
    (∀ (f : Nat → UploadOutcome) (dl resolve pub : Bool) (fs : List String)
        (path : PPath),
      (cloudSave dl none resolve f pub fs path).uploadCalls = 1) ∧
    (∀ (f : Nat → UploadOutcome) (m : Nat → String) (n : Nat)
        (dl resolve pub : Bool) (fs : List String) (path : PPath),
      1 ≤ n → (∀ j, j < n → f j = .gce (m j)) →
      (cloudSave dl (some n) resolve f pub fs path).res =
          .error (.gce (m (n - 1))) ∧
        (cloudSave dl (some n) resolve f pub fs path).uploadCalls = n) ∧
    (∀ (f : Nat → UploadOutcome) (msg : String) (n : Nat)
        (dl resolve pub : Bool) (fs : List String) (path : PPath),
      f 0 = .err msg →
      (cloudSave dl (some n) resolve f pub fs path).res =
          .error (.other msg) ∧
        (cloudSave dl (some n) resolve f pub fs path).uploadCalls = 1) ∧
    ((cloudSave true (some 3) false failTwiceThenOk false []
        ⟨[], "empty.txt"⟩).res = .ok ⟨[], "empty.txt"⟩ ∧
      (cloudSave true (some 3) false failTwiceThenOk false []
        ⟨[], "empty.txt"⟩).uploadCalls = 3 ∧
      (cloudSave true (some 2) false failTwiceThenOk false []
        ⟨[], "empty.txt"⟩).res = .error (.gce "error 2") ∧
      (cloudSave true (some 2) false failTwiceThenOk false []
        ⟨[], "empty.txt"⟩).uploadCalls = 2) := by
  refine ⟨?_, ?_, ?_, ?_⟩
  · intro f dl resolve pub fs path
    simp [cloudSave, uploadRun]
    cases attemptOnce (f 0) <;> simp
  · intro f m n dl resolve pub fs path hn h
    have hrun : uploadRun (some n) f = (.error (.gce (m (n - 1))), n) := by
      simp [uploadRun, runRetry_all_gce f m n hn h]
    constructor <;> simp [cloudSave, hrun]
  · intro f msg n dl resolve pub fs path hf
    have hrun : uploadRun (some n) f = (.error (.other msg), 1) := by
      simp [uploadRun, runRetry, runRetryAux_err_first f 0 msg hf]
    constructor <;> simp [cloudSave, hrun]
  · exact ⟨by decide, by decide, by decide, by decide⟩

/-- Witness for C2: a store failing with the same transient error on every
attempt exhausts a 2-attempt policy, raising that error after exactly two
calls; an always-`IOError`-style failure is never retried. -/
theorem cloudSave_retry_policy_app :
    ((cloudSave true (some 2) false (fun _ => .gce "boom") false []
        ⟨[], "a.txt"⟩).res = .error (.gce "boom") ∧
      (cloudSave true (some 2) false (fun _ => .gce "boom") false []
        ⟨[], "a.txt"⟩).uploadCalls = 2) ∧
    ((cloudSave true (some 5) false (fun _ => .err "io") false []
        ⟨[], "a.txt"⟩).res = .error (.other "io") ∧
      (cloudSave true (some 5) false (fun _ => .err "io") false []
        ⟨[], "a.txt"⟩).uploadCalls = 1) :=
  ⟨cloudSave_retry_policy.2.1 (fun _ => .gce "boom") (fun _ => "boom") 2
      true false false [] ⟨[], "a.txt"⟩ (by decide) (fun j hj => rfl),
    cloudSave_retry_policy.2.2.1 (fun _ => .err "io") "io" 5
      true false false [] ⟨[], "a.txt"⟩ rfl⟩

/-- C1.  Whenever `delete_local` is set, the staged local file is gone from
the local filesystem when `CloudBucket.save` returns — for every upload
oracle and retry configuration, hence on the success path and on every
failure path of the upload alike, because the unlink sits in the `finally`
clause. -/
theorem cloudSave_cleanup (dl : Bool) (ten : Option Nat) (resolve : Bool)
    (f : Nat → UploadOutcome) (pub : Bool) (fs : List String) (path : PPath)
    (h : dl = true) :
    pathStr (localSave resolve fs path).1 ∉
      (cloudSave dl ten resolve f pub fs path).fs := by
  subst h
  have hfs : (cloudSave true ten resolve f pub fs path).fs =
      cloudCleanup true (localSave resolve fs path).2
        (pathStr (localSave resolve fs path).1) := by
    simp only [cloudSave]
    cases (uploadRun ten f).1 <;> rfl
  rw [hfs]
  unfold cloudCleanup
  rw [if_pos rfl]
  intro hmem
  have := (List.mem_filter.1 hmem).2
  simp at this

/-- Witness for C1: an upload that exhausts a 2-attempt retry policy and
raises still leaves the staged file (`"w.txt"`, present right after the
local save) deleted. -/
theorem cloudSave_cleanup_app :
    "w.txt" ∉ (cloudSave true (some 2) false (fun _ => .gce "down") false []
        ⟨[], "w.txt"⟩).fs ∧
      (cloudSave true (some 2) false (fun _ => .gce "down") false []
        ⟨[], "w.txt"⟩).res = .error (.gce "down") ∧
      "w.txt" ∈ (localSave false [] (⟨[], "w.txt"⟩ : PPath)).2 :=
  ⟨cloudSave_cleanup true (some 2) false (fun _ => .gce "down") false []
      ⟨[], "w.txt"⟩ rfl,
    by decide, by decide⟩

/-- C3.  When the resolved path fails the bucket's `allows` policy (in
particular the merged-extension policy `fileAllowedByExts`), `Bucket.save`
raises the distinct `NotAllowedUploadError` before any I/O: the local
filesystem is unchanged and no object-store call of any kind was made, for
a cloud-backed bucket and a local-only bucket alike. -/
theorem bucketSave_policy_precedes_io (allows : PPath → Bool)
    (dl : Bool) (ten : Option Nat) (resolve : Bool) (sf : String → String)
    (uuidGen : Nat → String) (c : Nat) (filename : String)
    (nameArg : Option String) (uuid_name pub : Bool)
    (f : Nat → UploadOutcome) (fs : List String)
    (h : allows (secure_path sf uuidGen c filename nameArg uuid_name).path =
      false) :
    (bucketSaveCloud allows dl ten resolve sf uuidGen c filename nameArg
          uuid_name pub f fs).res = .error .notAllowedUpload ∧
      (bucketSaveCloud allows dl ten resolve sf uuidGen c filename nameArg
          uuid_name pub f fs).fs = fs ∧
      (bucketSaveCloud allows dl ten resolve sf uuidGen c filename nameArg
          uuid_name pub f fs).uploadCalls = 0 ∧
      (bucketSaveCloud allows dl ten resolve sf uuidGen c filename nameArg
          uuid_name pub f fs).publicCalls = 0 ∧
      (bucketSaveCloud allows dl ten resolve sf uuidGen c filename nameArg
          uuid_name pub f fs).blobKey = none ∧
      (bucketSaveLocal allows resolve sf uuidGen c filename nameArg
          uuid_name pub fs).res = .error .notAllowedUpload ∧
      (bucketSaveLocal allows resolve sf uuidGen c filename nameArg
          uuid_name pub fs).fs = fs := by
  refine ⟨?_, ?_, ?_, ?_, ?_, ?_, ?_⟩ <;>
    simp [bucketSaveCloud, bucketSaveLocal, h]

/-- Witness for C3: saving `"virus.exe"` against the merged extension tuple
`("txt", "jpg")` is rejected with storage untouched. -/
theorem bucketSave_policy_precedes_io_app :
    (bucketSaveCloud (fileAllowedByExts (mergedExtensions ["txt", "jpg"] [] []))
        true none false secure_filename (fun _ => "u") 0 "virus.exe" none false
        false (fun _ => .ok) ["old.txt"]).res = .error .notAllowedUpload ∧
      (bucketSaveCloud (fileAllowedByExts (mergedExtensions ["txt", "jpg"] [] []))
        true none false secure_filename (fun _ => "u") 0 "virus.exe" none false
        false (fun _ => .ok) ["old.txt"]).fs = ["old.txt"] ∧
      (bucketSaveCloud (fileAllowedByExts (mergedExtensions ["txt", "jpg"] [] []))
        true none false secure_filename (fun _ => "u") 0 "virus.exe" none false
        false (fun _ => .ok) ["old.txt"]).uploadCalls = 0 :=
  have h := bucketSave_policy_precedes_io
    (fileAllowedByExts (mergedExtensions ["txt", "jpg"] [] []))
    true none false secure_filename (fun _ => "u") 0 "virus.exe" none false
    false (fun _ => .ok) ["old.txt"] (by decide)
  ⟨h.1, h.2.1, h.2.2.1⟩

/-- C10.  For a bucket bound to a local backend, `Bucket.save` with
`public=True` succeeds and returns exactly the same result as the identical
call with `public=False`: the flag is swallowed by `LocalBucket.save`'s
`**kwargs`, no error is raised and no `make_public` call happens. -/
theorem bucketSaveLocal_public_noop (allows : PPath → Bool) (resolve : Bool)
    (sf : String → String) (uuidGen : Nat → String) (c : Nat)
    (filename : String) (nameArg : Option String) (uuid_name : Bool)
    (fs : List String)
    (hallow : allows (secure_path sf uuidGen c filename nameArg
      uuid_name).path = true) :
    bucketSaveLocal allows resolve sf uuidGen c filename nameArg uuid_name
        true fs =
      bucketSaveLocal allows resolve sf uuidGen c filename nameArg uuid_name
        false fs ∧
    (bucketSaveLocal allows resolve sf uuidGen c filename nameArg uuid_name
        true fs).publicCalls = 0 ∧
    (bucketSaveLocal allows resolve sf uuidGen c filename nameArg uuid_name
        true fs).res =
      .ok (localSave resolve fs (secure_path sf uuidGen c filename nameArg
        uuid_name).path).1 := by
  refine ⟨rfl, ?_, ?_⟩ <;> simp [bucketSaveLocal, hallow]

/-- Witness for C10: a concrete local save of `"photo.JPG"` returns
`"photo.jpg"` for both values of `public`, with no make-public call. -/
theorem bucketSaveLocal_public_noop_app :
    bucketSaveLocal (fun _ => true) false secure_filename (fun _ => "u") 0
        "photo.JPG" none false true [] =
      bucketSaveLocal (fun _ => true) false secure_filename (fun _ => "u") 0
        "photo.JPG" none false false [] ∧
    (bucketSaveLocal (fun _ => true) false secure_filename (fun _ => "u") 0
        "photo.JPG" none false true []).publicCalls = 0 ∧
    (bucketSaveLocal (fun _ => true) false secure_filename (fun _ => "u") 0
        "photo.JPG" none false true []).res = .ok ⟨[], "photo.jpg"⟩ :=
  have h := bucketSaveLocal_public_noop (fun _ => true) false secure_filename
    (fun _ => "u") 0 "photo.JPG" none false [] rfl
  ⟨h.1, h.2.1, by rw [h.2.2]; decide⟩

theorem freeFrom_found (fs : List String) (par : List String)
    (stem sfx : String) :
    ∀ (fuel k : Nat),
      (∃ j, k ≤ j ∧ j ≤ k + fuel ∧ joinP par (candName stem sfx j) ∉ fs) →
      k ≤ freeFrom fs par stem sfx fuel k ∧
        joinP par (candName stem sfx (freeFrom fs par stem sfx fuel k)) ∉ fs ∧
        ∀ j, k ≤ j → j < freeFrom fs par stem sfx fuel k →
          joinP par (candName stem sfx j) ∈ fs := by
  intro fuel
  induction fuel with
  | zero =>
    intro k h
    obtain ⟨j, hkj, hjk, hfree⟩ := h
    have hj : j = k := by omega
    subst hj
    refine ⟨Nat.le_refl _, ?_, ?_⟩
    · simpa [freeFrom] using hfree
    · intro j h1 h2
      simp [freeFrom] at h2
      omega
  | succ fuel ih =>
    intro k h
    by_cases hmem : joinP par (candName stem sfx k) ∈ fs
    · have hk1 : freeFrom fs par stem sfx (fuel + 1) k =
          freeFrom fs par stem sfx fuel (k + 1) := by
        simp [freeFrom, hmem]
      obtain ⟨j, hkj, hjk, hfree⟩ := h
      have hjne : j ≠ k := by
        intro hh
        exact hfree (hh ▸ hmem)
      have hrec := ih (k + 1) ⟨j, by omega, by omega, hfree⟩
      rw [hk1]
      refine ⟨by omega, hrec.2.1, ?_⟩
      intro i h1 h2
      by_cases hik : i = k
      · exact hik ▸ hmem
      · exact hrec.2.2 i (by omega) h2
    · have hk0 : freeFrom fs par stem sfx (fuel + 1) k = k := by
        simp [freeFrom, hmem]
      rw [hk0]
      exact ⟨Nat.le_refl _, hmem, fun j h1 h2 => by omega⟩

/-- C4.  With `resolve_conflicts` set and an occupied target path,
`LocalBucket.save` stores the file under the original stem suffixed `_N`,
where `N` is the smallest index starting from 1 whose candidate path does
not exist (the loop increments until an unused path is found); with
`resolve_conflicts` unset the existing file is silently overwritten: the
original path is returned and the write lands on it.  The existence
hypothesis says some candidate within the search budget is free, which is
always the case for a finite filesystem since the candidate names are
pairwise distinct. -/
theorem localSave_conflict_resolution (fs : List String) (path : PPath)
    (hmem : pathStr path ∈ fs)
    (hfree : ∃ j, 1 ≤ j ∧ j ≤ fs.length + 2 ∧
      joinP path.parent (candName (stemOf path.name) (sfxOf path.name) j) ∉ fs) :
    (localSave true fs path).1 =
        withName path
          (candName (stemOf path.name) (sfxOf path.name)
            (freeFrom fs path.parent (stemOf path.name) (sfxOf path.name)
              (fs.length + 1) 1)) ∧
      1 ≤ freeFrom fs path.parent (stemOf path.name) (sfxOf path.name)
          (fs.length + 1) 1 ∧
      joinP path.parent
          (candName (stemOf path.name) (sfxOf path.name)
            (freeFrom fs path.parent (stemOf path.name) (sfxOf path.name)
              (fs.length + 1) 1)) ∉ fs ∧
      (∀ j, 1 ≤ j →
        j < freeFrom fs path.parent (stemOf path.name) (sfxOf path.name)
          (fs.length + 1) 1 →
        joinP path.parent (candName (stemOf path.name) (sfxOf path.name) j)
          ∈ fs) ∧
      (localSave false fs path).1 = path ∧
      (localSave false fs path).2 = pathStr path :: fs := by
  obtain ⟨j, h1, h2, h3⟩ := hfree
  have hspec := freeFrom_found fs path.parent (stemOf path.name)
    (sfxOf path.name) (fs.length + 1) 1 ⟨j, h1, by omega, h3⟩
  refine ⟨?_, hspec.1, hspec.2.1, hspec.2.2, ?_, ?_⟩
  · simp [localSave, hmem]
  · simp [localSave]
  · simp [localSave]

/-- Witness for C4: with `foo.txt` and `foo_1.txt` … `foo_5.txt` already on
disk, saving another `foo.txt` under conflict resolution yields `foo_6.txt`,
while without conflict resolution `foo.txt` itself is returned and
overwritten. -/
theorem localSave_conflict_resolution_app :
    (localSave true
        ["foo.txt", "foo_1.txt", "foo_2.txt", "foo_3.txt", "foo_4.txt",
          "foo_5.txt"] ⟨[], "foo.txt"⟩).1 = ⟨[], "foo_6.txt"⟩ ∧
      (localSave false
        ["foo.txt", "foo_1.txt", "foo_2.txt", "foo_3.txt", "foo_4.txt",
          "foo_5.txt"] ⟨[], "foo.txt"⟩).1 = ⟨[], "foo.txt"⟩ :=
  have h := localSave_conflict_resolution
    ["foo.txt", "foo_1.txt", "foo_2.txt", "foo_3.txt", "foo_4.txt",
      "foo_5.txt"] ⟨[], "foo.txt"⟩ (by decide) ⟨6, by decide, by decide,
      by decide⟩
  ⟨by rw [h.1]; decide, by rw [h.2.2.2.2.1]⟩

theorem pathStr_nil (n : String) : pathStr ⟨[], n⟩ = n := rfl

theorem cloudSave_blobKey_eq (dl : Bool) (ten : Option Nat) (resolve : Bool)
    (f : Nat → UploadOutcome) (pub : Bool) (fs : List String) (path : PPath) :
    (cloudSave dl ten resolve f pub fs path).blobKey =
      pathStr (localSave resolve fs path).1 := by
  simp only [cloudSave]
  cases (uploadRun ten f).1 <;> rfl

theorem localSave_no_resolve (fs : List String) (path : PPath) :
    (localSave false fs path).1 = path := by
  simp [localSave]

/-- Counterexample for C5 as stated.  In `CloudBucket.save` the blob key is
always `str(path)` — the staged local path — so in the no-explicit-name case
the key is NOT a freshly generated identifier decoupled from the local path:
saving `"empty.txt"` with no name and `uuid_name=False` uses the sanitized
original filename `"empty.txt"` as the remote key, equal to the staged local
path, and the uuid supply (which would have produced `"fresh-uuid"`) is
never drawn from (`ctr` stays 0).  (The uuid-decoupled remote key exists
only in the stale `upload_set.py` iteration of the code base.) -/
theorem cloudSave_blob_key_counterexample :
    (bucketSaveCloud (fun _ => true) true none false secure_filename
        (fun _ => "fresh-uuid") 0 "empty.txt" none false false
        (fun _ => .ok) []).blobKey = some "empty.txt" ∧
      (bucketSaveCloud (fun _ => true) true none false secure_filename
        (fun _ => "fresh-uuid") 0 "empty.txt" none false false
        (fun _ => .ok) []).res = .ok ⟨[], "empty.txt"⟩ ∧
      (bucketSaveCloud (fun _ => true) true none false secure_filename
        (fun _ => "fresh-uuid") 0 "empty.txt" none false false
        (fun _ => .ok) []).ctr = 0 ∧
      (bucketSaveCloud (fun _ => true) true none false secure_filename
        (fun _ => "fresh-uuid") 0 "empty.txt" none false false
        (fun _ => .ok) []).blobKey ≠
        some (withSfx "fresh-uuid" (strLower (pathSuffix "empty.txt"))) := by
  refine ⟨by decide, by decide, by decide, by decide⟩

/-- C5 amended.  The remote object key of a cloud save is always the staged
local relative path (`blob = self.bucket.blob(str(path))`), whether or not
the caller supplied an explicit name; when no name is given and
`uuid_name=True`, that staged path — and hence the key — is itself a fresh
identifier drawn from the uuid supply with the original extension
lower-cased, so the key is uuid-based but coincides with the local staged
path instead of being decoupled from it. -/
theorem cloudSave_blob_key (dl : Bool) (ten : Option Nat) (resolve : Bool)
    (f : Nat → UploadOutcome) (pub : Bool) (fs : List String) (path : PPath)
    (allows : PPath → Bool) (sf : String → String) (uuidGen : Nat → String)
    (c : Nat) (filename : String) (nameArg : Option String)
    (hu : uuidGen c ≠ "")
    (hallow : allows (secure_path sf uuidGen c filename nameArg true).path =
      true)
    (hnone : givenName nameArg = none) :
    (cloudSave dl ten resolve f pub fs path).blobKey =
        pathStr (localSave resolve fs path).1 ∧
      (bucketSaveCloud allows dl ten false sf uuidGen c filename nameArg
          true pub f fs).blobKey =
        some (withSfx (uuidGen c) (strLower (pathSuffix filename))) := by
  refine ⟨cloudSave_blobKey_eq dl ten resolve f pub fs path, ?_⟩
  have hsp : secure_path sf uuidGen c filename nameArg true =
      ⟨⟨[], withSfx (uuidGen c) (strLower (pathSuffix filename))⟩, c + 1⟩ := by
    simp [secure_path, hnone, finishSecure, hu]
  rw [hsp] at hallow
  simp only [bucketSaveCloud, hsp, hallow, if_pos]
  rw [cloudSave_blobKey_eq, localSave_no_resolve, pathStr_nil]

/-- Witness for C5 amended: an explicit-name save keys the blob by the
staged path, and a no-name `uuid_name=True` save keys it by the freshly
drawn identifier plus lower-cased original extension — which is again the
staged path. -/
theorem cloudSave_blob_key_app :
    (cloudSave true none false (fun _ => .ok) false []
        ⟨["docs"], "report.pdf"⟩).blobKey = "docs/report.pdf" ∧
      (bucketSaveCloud (fun _ => true) true none false secure_filename
        (fun _ => "f47ac10b") 0 "photo.JPG" none true false
        (fun _ => .ok) []).blobKey = some "f47ac10b.jpg" :=
  have h := cloudSave_blob_key true none false (fun _ => .ok) false []
    ⟨["docs"], "report.pdf"⟩ (fun _ => true) secure_filename
    (fun _ => "f47ac10b") 0 "photo.JPG" none (by decide) rfl rfl
  ⟨by rw [h.1]; decide, by rw [h.2]; decide⟩

theorem finishSecure_name_spec (uuidGen : Nat → String) (c : Nat)
    (par : List String) (sn ext : String) (huuid : ∀ k, uuidGen k ≠ "") :
    ∃ sn', sn' ≠ "" ∧
      (finishSecure uuidGen c par sn ext).path.name = withSfx sn' (strLower ext) := by
  by_cases h : sn = ""
  · exact ⟨uuidGen c, huuid c, by simp [finishSecure, h]⟩
  · exact ⟨sn, h, by simp [finishSecure, h]⟩

theorem secure_path_as_finish (sf : String → String) (uuidGen : Nat → String)
    (c : Nat) (filename : String) (nameArg : Option String) (uuid_name : Bool) :
    ∃ (sn : String) (c0 : Nat) (par : List String),
      secure_path sf uuidGen c filename nameArg uuid_name =
        finishSecure uuidGen c0 par sn (chosenExt filename nameArg) := by
  cases hgn : givenName nameArg with
  | some n =>
    refine ⟨sf (nameFinal n), c,
      (((nameParent n).filter (fun part => part ≠ "..")).map sf).filter
        (fun part => part ≠ ""), ?_⟩
    simp [secure_path, chosenExt, hgn]
  | none =>
    cases uuid_name with
    | false => exact ⟨sf filename, c, [], by simp [secure_path, chosenExt, hgn]⟩
    | true => exact ⟨uuidGen c, c + 1, [], by simp [secure_path, chosenExt, hgn]⟩

theorem chosenExt_shape (filename : String) (nameArg : Option String)
    (h : chosenExt filename nameArg ≠ "") :
    ∃ t : List Char, chosenExt filename nameArg = ⟨'.' :: t⟩ ∧ '.' ∉ t ∧ t ≠ [] := by
  cases hgn : givenName nameArg with
  | none =>
    have hc : chosenExt filename nameArg = pathSuffix filename := by
      unfold chosenExt
      rw [hgn]
    rw [hc] at h ⊢
    exact sfx_shape h
  | some n =>
    have hc : chosenExt filename nameArg =
        if sfxOf (nameFinal n) ≠ "" then sfxOf (nameFinal n)
        else pathSuffix filename := by
      unfold chosenExt
      rw [hgn]
    rw [hc] at h ⊢
    by_cases hs : sfxOf (nameFinal n) ≠ ""
    · rw [if_pos hs] at h ⊢
      exact sfx_shape h
    · rw [if_neg hs] at h ⊢
      exact sfx_shape h

/-- Counterexample for C8 as stated.  With original filename `"x"` (which
has no extension) and preferred name `"a.b.c."` (whose trailing dot means it
supplies no extension either: its Python `suffix` is empty), the sanitized
final segment is `"a.b.c"`, `with_suffix("")` strips only the last dotted
part, and the returned segment `"a.b"` has extension `".b"` — not the
original filename's (empty) extension. -/
theorem secure_path_ext_counterexample :
    (secure_path secure_filename (fun _ => "u0") 0 "x" (some "a.b.c.")
        true).path.name = "a.b" ∧
      sfxOf (secure_path secure_filename (fun _ => "u0") 0 "x" (some "a.b.c.")
        true).path.name = ".b" ∧
      sfxOf (nameFinal "a.b.c.") = "" ∧
      pathSuffix "x" = "" ∧
      strLower (pathSuffix "x") = "" := by
  refine ⟨by decide, by decide, by decide, by decide, by decide⟩

/-- C8 amended.  For every input whose applicable extension is non-empty —
the preferred name's suffix if it has one, otherwise the original
filename's suffix — `secure_path` returns a final segment that is non-empty
and carries exactly that extension lower-cased; the final segment is
non-empty in all other cases too.  When sanitization of the final segment
yields an empty string (and when `uuid_name` is set with no preferred
name), the stem falls back to a freshly drawn unique identifier carrying
the original extension lower-cased.  (When the applicable extension is
empty, the returned segment may still carry a residual extension of its
own, as the counterexample shows.) -/
theorem secure_path_extension (sf : String → String) (uuidGen : Nat → String)
    (c : Nat) (filename : String) (nameArg : Option String) (uuid_name : Bool)
    (huuid : ∀ k, uuidGen k ≠ "") :
    (secure_path sf uuidGen c filename nameArg uuid_name).path.name ≠ "" ∧
      (chosenExt filename nameArg ≠ "" →
        sfxOf (secure_path sf uuidGen c filename nameArg uuid_name).path.name =
          strLower (chosenExt filename nameArg)) ∧
      (givenName nameArg = none → uuid_name = true →
        (secure_path sf uuidGen c filename nameArg uuid_name).path.name =
            withSfx (uuidGen c) (strLower (pathSuffix filename)) ∧
          (secure_path sf uuidGen c filename nameArg uuid_name).ctr = c + 1) ∧
      (givenName nameArg = none → uuid_name = false → sf filename = "" →
        (secure_path sf uuidGen c filename nameArg uuid_name).path.name =
            withSfx (uuidGen c) (strLower (pathSuffix filename)) ∧
          (secure_path sf uuidGen c filename nameArg uuid_name).ctr = c + 1) := by
  obtain ⟨sn, c0, par, heq⟩ :=
    secure_path_as_finish sf uuidGen c filename nameArg uuid_name
  obtain ⟨sn', hne, hname⟩ :=
    finishSecure_name_spec uuidGen c0 par sn (chosenExt filename nameArg) huuid
  refine ⟨?_, ?_, ?_, ?_⟩
  · rw [heq, hname]
    exact withSfx_ne_empty hne _
  · intro hce
    rw [heq, hname]
    exact sfxOf_withSfx_lower hne (chosenExt_shape filename nameArg hce)
  · intro hn ht
    subst ht
    constructor <;> simp [secure_path, hn, finishSecure, huuid c]
  · intro hn ht hsf
    subst ht
    constructor <;> simp [secure_path, hn, hsf, finishSecure]

/-- Witness for C8 amended: the non-ASCII filename `"天安门.jpg"` with no
preferred name sanitizes to the fresh-identifier-based `"u0.jpg"`; the
extension-less non-ASCII `"天安门"` with `uuid_name=False` hits the
empty-sanitization fallback and becomes the bare identifier `"u0"`; and
`"photo.JPG"` keeps its extension lower-cased. -/
theorem secure_path_extension_app :
    (secure_path secure_filename (fun _ => "u0") 0 "天安门.jpg" none
        true).path.name = "u0.jpg" ∧
      secure_filename "天安门" = "" ∧
      (secure_path secure_filename (fun _ => "u0") 0 "天安门" none
        false).path.name = "u0" ∧
      sfxOf (secure_path secure_filename (fun _ => "u0") 0 "photo.JPG" none
        false).path.name = ".jpg" :=
  have h1 := secure_path_extension secure_filename (fun _ => "u0") 0
    "天安门.jpg" none true (fun _ => (by decide : ("u0" : String) ≠ ""))
  have h2 := secure_path_extension secure_filename (fun _ => "u0") 0
    "天安门" none false (fun _ => (by decide : ("u0" : String) ≠ ""))
  have h3 := secure_path_extension secure_filename (fun _ => "u0") 0
    "photo.JPG" none false (fun _ => (by decide : ("u0" : String) ≠ ""))
  ⟨by rw [(h1.2.2.1 rfl rfl).1]; decide, by decide,
    by rw [(h2.2.2.2 rfl rfl (by decide)).1]; decide,
    by rw [h3.2.1 (by decide)]; decide⟩

end FlaskGS
